import Mathlib

/-!
Verification of the nexus detection and liability estimation engine of
`nexus-calculator-app` (Python CLI, `src/cli/src/nexus_cli/analyzer.py` and
`src/cli/src/nexus_cli/config_loader.py`).

The Python code is shallowly embedded: dataclasses become structures, the
per-state detection loop becomes a structurally recursive function, money and
tax rates are modelled by `Rat`, Python `date` values by a `Date` structure
ordered lexicographically by `(year, month, day)`, and Python's stable
`sorted(..., key=lambda t: (t.date, t.id))` by Mathlib's stable
`List.insertionSort` over the same key order.  Fallible lookups return
`Option`.
-/

namespace Nexus

/-- Calendar date, compared lexicographically like Python `datetime.date`. -/
structure Date where
  year : Nat
  month : Nat
  day : Nat
deriving DecidableEq

/-- Strict comparison of dates, `a < b` in Python. -/
def Date.ltb (a b : Date) : Bool :=
  decide (a.year < b.year ∨ (a.year = b.year ∧
    (a.month < b.month ∨ (a.month = b.month ∧ a.day < b.day))))

/-- Non-strict comparison of dates, `a <= b` in Python. -/
def Date.leb (a b : Date) : Bool :=
  decide (a.year < b.year ∨ (a.year = b.year ∧
    (a.month < b.month ∨ (a.month = b.month ∧ a.day ≤ b.day))))

/-- `Transaction` dataclass of `analyzer.py`. -/
structure Transaction where
  id : String
  state_code : String
  amount : Rat
  date : Date
  revenue_type : Option String
deriving DecidableEq

/-- `StateRule` model of `config_loader.py` (the fields the core reads). -/
structure StateRule where
  state_code : String
  amount : Rat
  transactions : Option Nat
  effective_date : Date
  end_date : Option Date
deriving DecidableEq

/-- `StateResult` dataclass of `analyzer.py`. -/
structure StateResult where
  state_code : String
  has_nexus : Bool
  total_revenue : Rat
  total_transactions : Nat
  threshold_revenue : Rat
  threshold_transactions : Option Nat
  breach_type : Option String
  breach_date : Option Date
  breach_transaction_id : Option String
  threshold_percentage : Rat
  tax_rate : Rat
  estimated_liability : Rat
deriving DecidableEq

/-- `AnalysisResult` dataclass of `analyzer.py`. -/
structure AnalysisResult where
  state_results : List StateResult
  total_liability : Rat
  analysis_year : Nat
  transaction_count : Nat
  warnings : List String
deriving DecidableEq

/-- Python's string comparison on character lists: lexicographic by Unicode
code point. -/
def charsLeb : List Char → List Char → Bool
  | [], _ => true
  | _ :: _, [] => false
  | a :: as, b :: bs =>
    if a.toNat < b.toNat then true
    else if b.toNat < a.toNat then false
    else charsLeb as bs

/-- `a <= b` on Python strings: lexicographic by code point. -/
def strLeb (a b : String) : Bool := charsLeb a.toList b.toList

/-- Python `str.upper()` (ASCII approximation, like `Char.toUpper`). -/
def strUpper (s : String) : String := (s.toList.map Char.toUpper).asString

/-- The sort key order of `sorted(transactions, key=lambda t: (t.date, t.id))`:
lexicographic on the pair `(date, id)`, with Python's code-point string order
on `id`. -/
def txnKeyLE (a b : Transaction) : Bool :=
  Date.ltb a.date b.date || (a.date == b.date && strLeb a.id b.id)

/-- The key order as a relation, for use with `List.insertionSort`. -/
def txnLE (a b : Transaction) : Prop := txnKeyLE a b = true

instance : DecidableRel txnLE := fun a b => instDecidableEqBool (txnKeyLE a b) true

/-- `sorted_txns = sorted(transactions, key=lambda t: (t.date, t.id))`.
Python's `sorted` is a stable sort by the key order; `List.insertionSort` is
the same stable sort. -/
def sortTxns (l : List Transaction) : List Transaction :=
  l.insertionSort txnLE

/-- Sum of the `amount` fields of a transaction list. -/
def sumAmounts (l : List Transaction) : Rat :=
  (l.map Transaction.amount).sum

/-- Cumulative revenue of the first `n` transactions of a list. -/
def cumRev (l : List Transaction) (n : Nat) : Rat :=
  sumAmounts (l.take n)

/-- `total_revenue >= rule.amount`, the revenue-threshold check of the loop. -/
def revHit (rule : StateRule) (rev : Rat) : Bool :=
  decide (rule.amount ≤ rev)

/-- `rule.transactions and total_txns >= rule.transactions`: Python truthiness
makes `None` and `0` both skip the count check. -/
def cntHit (rule : StateRule) (cnt : Nat) : Bool :=
  match rule.transactions with
  | none => false
  | some n => decide (n ≠ 0) && decide (n ≤ cnt)

/-- The cumulative-breach loop of `_analyze_state` (lines 387-401): walk the
sorted list accumulating revenue and count; after adding a transaction, check
the revenue threshold first, then the count threshold; stop at the first hit.
Returns the accumulated revenue, the accumulated count, and the breach index
and type if a breach occurred. -/
def detectLoop (rule : StateRule) :
    List Transaction → Rat → Nat → Nat → Rat × Nat × Option (Nat × String)
  | [], rev, cnt, _ => (rev, cnt, none)
  | t :: ts, rev, cnt, idx =>
    let rev' := rev + t.amount
    let cnt' := cnt + 1
    if revHit rule rev' then (rev', cnt', some (idx, "revenue"))
    else if cntHit rule cnt' then (rev', cnt', some (idx, "transactions"))
    else detectLoop rule ts rev' cnt' (idx + 1)

/-- The `if rule.amount == 0 … else …` detection step of `_analyze_state`:
a zero revenue threshold means no breach check at all, and the totals are the
plain sums over the (sorted) transactions. -/
def detectOut (rule : StateRule) (ss : List Transaction) :
    Rat × Nat × Option (Nat × String) :=
  if rule.amount = 0 then (sumAmounts ss, ss.length, none)
  else detectLoop rule ss 0 0 0

/-- `txn_pct` of `_analyze_state` (lines 406-408): nonzero only when
`rule.transactions` is truthy and positive. -/
def txnPctOf (tr : Option Nat) (cnt : Nat) : Rat :=
  match tr with
  | none => 0
  | some n => if n ≠ 0 ∧ 0 < n then (cnt : Rat) / (n : Rat) * 100 else 0

/-- `_analyze_state(state_code, transactions, rule)` with the tax-rate lookup
abstracted as a function `taxRate` (the `loader.get_tax_rate` collaborator,
`or 0.0` modelled by `Option.getD 0`). -/
def analyzeState (taxRate : String → Option Rat) (state_code : String)
    (transactions : List Transaction) (rule : StateRule) : StateResult :=
  let sorted_txns := sortTxns transactions
  let out := detectOut rule sorted_txns
  let total_revenue := out.1
  let total_txns := out.2.1
  let breach := out.2.2
  let threshold_pct :=
    if 0 < rule.amount then
      max (total_revenue / rule.amount * 100) (txnPctOf rule.transactions total_txns)
    else 0
  let tax_rate := (taxRate state_code).getD 0
  let liability :=
    match breach with
    | none => 0
    | some (i, _) => sumAmounts (sorted_txns.drop i) * (tax_rate / 100)
  { state_code := state_code
    has_nexus := breach.isSome
    total_revenue := total_revenue
    total_transactions := total_txns
    threshold_revenue := rule.amount
    threshold_transactions := rule.transactions
    breach_type := breach.map Prod.snd
    breach_date := breach.bind (fun b => (sorted_txns[b.1]?).map Transaction.date)
    breach_transaction_id := breach.bind (fun b => (sorted_txns[b.1]?).map Transaction.id)
    threshold_percentage := threshold_pct
    tax_rate := tax_rate
    estimated_liability := liability }

/-- `_is_valid_state_code`: exactly two characters, all alphabetic (ASCII
approximation of `str.isalpha`). -/
def isValidStateCode (code : String) : Bool :=
  code.length == 2 && code.toList.all Char.isAlpha

/-- The per-transaction body of `_filter_transactions`: the four filter rules
applied in order, collecting kept transactions and invalid-state warnings. -/
def filterStep (year : Nat) (ignore_marketplace include_negatives : Bool)
    (acc : List Transaction × List String) (txn : Transaction) :
    List Transaction × List String :=
  if txn.date.year ≠ year then acc
  else if ignore_marketplace && txn.revenue_type == some "marketplace" then acc
  else if !include_negatives && decide (txn.amount < 0) then acc
  else if !isValidStateCode txn.state_code then
    (acc.1, acc.2 ++ ["Invalid state code: " ++ txn.state_code])
  else (acc.1 ++ [txn], acc.2)

/-- The `"Filtered out <N> marketplace transactions"` warning string. -/
def marketplaceWarning (n : Nat) : String :=
  "Filtered out " ++ toString n ++ " marketplace transactions"

/-- `_filter_transactions` (lines 318-354): per-transaction filtering, then,
when `ignore_marketplace` is set and the drop count is positive, a single
marketplace warning counting all drops. -/
def filterTransactions (transactions : List Transaction) (year : Nat)
    (ignore_marketplace include_negatives : Bool) :
    List Transaction × List String :=
  let fw := transactions.foldl (filterStep year ignore_marketplace include_negatives) ([], [])
  if ignore_marketplace && decide (0 < transactions.length - fw.1.length) then
    (fw.1, fw.2 ++ [marketplaceWarning (transactions.length - fw.1.length)])
  else fw

/-- One step of `_group_by_state`: append the transaction to its state's
bucket, creating the bucket at the end on first sight (Python dict insertion
order). -/
def groupStep (acc : List (String × List Transaction)) (txn : Transaction) :
    List (String × List Transaction) :=
  if acc.any (fun p => p.1 == txn.state_code) then
    acc.map (fun p => if p.1 == txn.state_code then (p.1, p.2 ++ [txn]) else p)
  else acc ++ [(txn.state_code, [txn])]

/-- `_group_by_state`: partition by state code, insertion-ordered. -/
def groupByState (l : List Transaction) : List (String × List Transaction) :=
  l.foldl groupStep []

/-- The configuration consumed by the core: the `states` dict of
`state_rules.yaml` (association list in dict order), the `combined_rate`
entries of `tax_rates.yaml`, and `date.today()`. -/
structure Config where
  states : List (String × StateRule)
  rates : List (String × Rat)
  today : Date

/-- `ConfigLoader.get_rule_for_state`: uppercase the code, look it up in the
`states` dict, and drop the rule when its `end_date` has passed. -/
def getRuleForState (cfg : Config) (state_code : String) : Option StateRule :=
  match cfg.states.lookup (strUpper state_code) with
  | none => none
  | some rule =>
    match rule.end_date with
    | some d => if Date.leb d cfg.today then none else some rule
    | none => some rule

/-- `ConfigLoader.get_current_rules`: all rules whose `end_date` is absent or
strictly in the future. -/
def getCurrentRules (cfg : Config) : List StateRule :=
  (cfg.states.filter (fun p =>
    match p.2.end_date with
    | none => true
    | some d => Date.ltb cfg.today d)).map Prod.snd

/-- `ConfigLoader.get_tax_rate`: uppercase the code and look up the combined
rate. -/
def getTaxRate (cfg : Config) (state_code : String) : Option Rat :=
  cfg.rates.lookup (strUpper state_code)

/-- The zero-activity `StateResult` synthesized by `analyze` (lines 183-201)
for a current rule whose state produced no transactions. -/
def zeroStateResult (cfg : Config) (rule : StateRule) : StateResult :=
  { state_code := rule.state_code
    has_nexus := false
    total_revenue := 0
    total_transactions := 0
    threshold_revenue := rule.amount
    threshold_transactions := rule.transactions
    breach_type := none
    breach_date := none
    breach_transaction_id := none
    threshold_percentage := 0
    tax_rate := (getTaxRate cfg rule.state_code).getD 0
    estimated_liability := 0 }

/-- The `"No rule found for state: <code>"` warning string. -/
def noRuleWarning (code : String) : String :=
  "No rule found for state: " ++ code

/-- The body of `analyze`'s per-state loop: states without a current rule get
a warning and are excluded; the rest are analyzed. -/
def stateStep (cfg : Config) (acc : List StateResult × List String)
    (p : String × List Transaction) : List StateResult × List String :=
  match getRuleForState cfg p.1 with
  | none => (acc.1, acc.2 ++ [noRuleWarning p.1])
  | some rule => (acc.1 ++ [analyzeState (getTaxRate cfg) p.1 p.2 rule], acc.2)

/-- `NexusAnalyzer.analyze` (lines 137-212): filter, group, analyze each
grouped state, synthesize zero-activity results for the remaining current
rules (membership tested against the states processed before the loop), and
sum the liability. -/
def analyze (cfg : Config) (transactions : List Transaction) (year : Nat)
    (ignore_marketplace include_negatives : Bool) : AnalysisResult :=
  let fw := filterTransactions transactions year ignore_marketplace include_negatives
  let by_state := groupByState fw.1
  let rw := by_state.foldl (stateStep cfg) ([], fw.2)
  let processed := rw.1.map StateResult.state_code
  let state_results := rw.1 ++ (getCurrentRules cfg).filterMap (fun rule =>
    if processed.contains rule.state_code then none else some (zeroStateResult cfg rule))
  { state_results := state_results
    total_liability := (state_results.map StateResult.estimated_liability).sum
    analysis_year := year
    transaction_count := fw.1.length
    warnings := rw.2 }

/-- The keep-predicate of the filter stage: a transaction survives iff it
passes the year, marketplace, negative-amount and state-code rules. -/
def passPred (year : Nat) (ignore_marketplace include_negatives : Bool)
    (t : Transaction) : Bool :=
  (t.date.year == year) && !(ignore_marketplace && t.revenue_type == some "marketplace")
    && !(!include_negatives && decide (t.amount < 0)) && isValidStateCode t.state_code

/-- The warning, if any, that the filter stage emits for a transaction: only
transactions failing the state-code rule (after passing the other three)
produce one. -/
def invalidWarn (year : Nat) (ignore_marketplace include_negatives : Bool)
    (t : Transaction) : Option String :=
  if t.date.year ≠ year then none
  else if ignore_marketplace && t.revenue_type == some "marketplace" then none
  else if !include_negatives && decide (t.amount < 0) then none
  else if !isValidStateCode t.state_code then some ("Invalid state code: " ++ t.state_code)
  else none

/-! ### Concrete fixtures used by witnesses and counterexamples -/

def exDate : Date := ⟨2024, 1, 1⟩

def exA : Transaction := ⟨"a", "CA", 60, exDate, none⟩

def exB : Transaction := ⟨"b", "CA", 60, exDate, none⟩

def exM : Transaction := ⟨"m", "CA", 5, exDate, some "marketplace"⟩

def exOld : Transaction := ⟨"o", "CA", 5, ⟨2023, 5, 1⟩, none⟩

def exT150 : Transaction := ⟨"1", "CA", 150, exDate, none⟩

def exRule : StateRule := ⟨"CA", 100, none, ⟨2020, 1, 1⟩, none⟩

def exRuleT : StateRule := ⟨"CA", 100, some 2, ⟨2020, 1, 1⟩, none⟩

def exRule0 : StateRule := ⟨"CA", 0, none, ⟨2020, 1, 1⟩, none⟩

def exTax : String → Option Rat := fun _ => some 10

def cexT1 : Transaction := ⟨"1", "CA", 600000, ⟨2024, 1, 1⟩, none⟩

def cexT2 : Transaction := ⟨"2", "CA", 400000, ⟨2024, 2, 1⟩, none⟩

def cexRule : StateRule := ⟨"CA", 500000, none, ⟨2020, 1, 1⟩, none⟩

def exCfg : Config := ⟨[("CA", exRule)], [("CA", 10)], ⟨2025, 6, 1⟩⟩

end Nexus

namespace Nexus

/-! ### Order lemmas for the sort key -/

theorem charsLeb_cons (a b : Char) (as bs : List Char) :
    charsLeb (a :: as) (b :: bs) =
      if a.toNat < b.toNat then true
      else if b.toNat < a.toNat then false
      else charsLeb as bs := rfl

theorem charsLeb_total (as : List Char) : ∀ bs,
    charsLeb as bs = true ∨ charsLeb bs as = true := by
  induction as with
  | nil => intro bs; left; rfl
  | cons a as ih =>
    intro bs
    cases bs with
    | nil => right; rfl
    | cons b bs =>
      rw [charsLeb_cons, charsLeb_cons]
      rcases ih bs with h | h <;>
        split_ifs <;> simp_all

theorem charsLeb_trans (as : List Char) : ∀ bs cs,
    charsLeb as bs = true → charsLeb bs cs = true → charsLeb as cs = true := by
  induction as with
  | nil => intro bs cs _ _; rfl
  | cons a as ih =>
    intro bs cs h1 h2
    cases bs with
    | nil => simp [charsLeb] at h1
    | cons b bs =>
      cases cs with
      | nil => simp [charsLeb] at h2
      | cons c cs =>
        rw [charsLeb_cons] at h1 h2 ⊢
        split_ifs at h1 h2 ⊢ <;>
          first
          | rfl
          | omega
          | exact ih bs cs h1 h2

theorem strLeb_total (a b : String) : strLeb a b = true ∨ strLeb b a = true :=
  charsLeb_total a.toList b.toList

theorem strLeb_trans {a b c : String} (h1 : strLeb a b = true) (h2 : strLeb b c = true) :
    strLeb a c = true :=
  charsLeb_trans a.toList b.toList c.toList h1 h2

theorem Date.ltb_trans {a b c : Date} (h1 : Date.ltb a b = true) (h2 : Date.ltb b c = true) :
    Date.ltb a c = true := by
  simp only [Date.ltb, decide_eq_true_eq] at h1 h2 ⊢
  omega

theorem Date.eq_of_not_ltb {a b : Date} (h1 : Date.ltb a b = false) (h2 : Date.ltb b a = false) :
    a = b := by
  cases a; cases b
  simp only [Date.ltb, decide_eq_false_iff_not] at h1 h2
  simp only [Date.mk.injEq]
  omega

theorem Date.leb_eq_false_of_ltb {a b : Date} (h : Date.ltb a b = true) :
    Date.leb b a = false := by
  simp only [Date.ltb, decide_eq_true_eq] at h
  simp only [Date.leb, decide_eq_false_iff_not]
  omega

instance : IsTotal Transaction txnLE := by
  constructor
  intro a b
  unfold txnLE txnKeyLE
  rcases h1 : Date.ltb a.date b.date
  · rcases h2 : Date.ltb b.date a.date
    · have hd : a.date = b.date := Date.eq_of_not_ltb h1 h2
      rcases strLeb_total a.id b.id with h | h
      · left; simp [hd, h]
      · right; simp [hd, h]
    · right; simp
  · left; simp

instance : IsTrans Transaction txnLE := by
  constructor
  intro a b c hab hbc
  unfold txnLE txnKeyLE at hab hbc ⊢
  simp only [Bool.or_eq_true, Bool.and_eq_true, beq_iff_eq] at hab hbc ⊢
  rcases hab with hab | ⟨hab, hab'⟩
  · rcases hbc with hbc | ⟨hbc, _⟩
    · exact Or.inl (Date.ltb_trans hab hbc)
    · exact Or.inl (hbc ▸ hab)
  · rcases hbc with hbc | ⟨hbc, hbc'⟩
    · exact Or.inl (hab ▸ hbc)
    · exact Or.inr ⟨hab.trans hbc, strLeb_trans hab' hbc'⟩

end Nexus

namespace Nexus

/-! ### Basic lemmas about sums, the sort, and the detection loop -/

theorem sumAmounts_nil : sumAmounts [] = 0 := rfl

theorem sumAmounts_cons (t : Transaction) (ts : List Transaction) :
    sumAmounts (t :: ts) = t.amount + sumAmounts ts := by
  simp [sumAmounts]

theorem sumAmounts_append (l₁ l₂ : List Transaction) :
    sumAmounts (l₁ ++ l₂) = sumAmounts l₁ + sumAmounts l₂ := by
  simp [sumAmounts]

theorem cumRev_zero (l : List Transaction) : cumRev l 0 = 0 := rfl

theorem cumRev_cons_succ (t : Transaction) (ts : List Transaction) (n : Nat) :
    cumRev (t :: ts) (n + 1) = t.amount + cumRev ts n := by
  simp [cumRev, sumAmounts]

theorem cumRev_cons_one (t : Transaction) (ts : List Transaction) :
    cumRev (t :: ts) 1 = t.amount := by
  simp [cumRev_cons_succ, cumRev_zero]

theorem sortTxns_perm (l : List Transaction) : (sortTxns l).Perm l :=
  List.perm_insertionSort txnLE l

theorem sumAmounts_sortTxns (l : List Transaction) :
    sumAmounts (sortTxns l) = sumAmounts l :=
  List.Perm.sum_eq ((sortTxns_perm l).map Transaction.amount)

theorem length_sortTxns (l : List Transaction) :
    (sortTxns l).length = l.length :=
  (sortTxns_perm l).length_eq

theorem detectLoop_nil (rule : StateRule) (rev : Rat) (cnt idx : Nat) :
    detectLoop rule [] rev cnt idx = (rev, cnt, none) := rfl

theorem detectLoop_cons (rule : StateRule) (t : Transaction) (ts : List Transaction)
    (rev : Rat) (cnt idx : Nat) :
    detectLoop rule (t :: ts) rev cnt idx =
      if revHit rule (rev + t.amount) then (rev + t.amount, cnt + 1, some (idx, "revenue"))
      else if cntHit rule (cnt + 1) then (rev + t.amount, cnt + 1, some (idx, "transactions"))
      else detectLoop rule ts (rev + t.amount) (cnt + 1) (idx + 1) := rfl

/-- Inversion: a breach result of the loop identifies a transaction of the
list, and the accumulated totals are the sums up to and including it. -/
theorem detectLoop_some_inv (rule : StateRule) :
    ∀ (ts : List Transaction) (rev : Rat) (cnt idx : Nat) (i : Nat) (s : String),
      (detectLoop rule ts rev cnt idx).2.2 = some (i, s) →
      idx ≤ i ∧ i - idx < ts.length ∧
      (detectLoop rule ts rev cnt idx).1 = rev + cumRev ts (i - idx + 1) ∧
      (detectLoop rule ts rev cnt idx).2.1 = cnt + (i - idx + 1) := by
  intro ts
  induction ts with
  | nil => intro rev cnt idx i s h; simp [detectLoop_nil] at h
  | cons t ts ih =>
    intro rev cnt idx i s h
    rw [detectLoop_cons] at h ⊢
    split_ifs at h ⊢ with h1 h2
    · simp only [Option.some.injEq, Prod.mk.injEq] at h
      obtain ⟨hi, -⟩ := h
      subst hi
      refine ⟨Nat.le_refl _, by simp, ?_, by simp⟩
      simp [cumRev_cons_one]
    · simp only [Option.some.injEq, Prod.mk.injEq] at h
      obtain ⟨hi, -⟩ := h
      subst hi
      refine ⟨Nat.le_refl _, by simp, ?_, by simp⟩
      simp [cumRev_cons_one]
    · obtain ⟨hle, hlt, hr, hc⟩ := ih (rev + t.amount) (cnt + 1) (idx + 1) i s h
      have hk : i - idx = (i - (idx + 1)) + 1 := by omega
      refine ⟨by omega, by simp; omega, ?_, by omega⟩
      rw [hk, cumRev_cons_succ, ← add_assoc]
      exact hr

/-- Inversion: a no-breach result of the loop means the whole list was summed. -/
theorem detectLoop_none_inv (rule : StateRule) :
    ∀ (ts : List Transaction) (rev : Rat) (cnt idx : Nat),
      (detectLoop rule ts rev cnt idx).2.2 = none →
      (detectLoop rule ts rev cnt idx).1 = rev + sumAmounts ts ∧
      (detectLoop rule ts rev cnt idx).2.1 = cnt + ts.length := by
  intro ts
  induction ts with
  | nil => intro rev cnt idx _; simp [detectLoop_nil, sumAmounts_nil]
  | cons t ts ih =>
    intro rev cnt idx h
    rw [detectLoop_cons] at h ⊢
    split_ifs at h ⊢ with h1 h2
    · obtain ⟨hr, hc⟩ := ih (rev + t.amount) (cnt + 1) (idx + 1) h
      constructor
      · rw [hr, sumAmounts_cons, ← add_assoc]
      · rw [hc]; simp; omega

/-- The loop stops at the first index where a condition fires, and reports
`"revenue"` when the revenue condition fires there (checked first). -/
theorem detectLoop_first_breach (rule : StateRule) :
    ∀ (ts : List Transaction) (rev : Rat) (cnt idx : Nat) (i : Nat),
      i < ts.length →
      (∀ j, j < i → revHit rule (rev + cumRev ts (j + 1)) = false ∧
        cntHit rule (cnt + (j + 1)) = false) →
      (revHit rule (rev + cumRev ts (i + 1)) = true ∨ cntHit rule (cnt + (i + 1)) = true) →
      detectLoop rule ts rev cnt idx =
        (rev + cumRev ts (i + 1), cnt + (i + 1),
          some (idx + i,
            if revHit rule (rev + cumRev ts (i + 1)) then "revenue" else "transactions")) := by
  intro ts
  induction ts with
  | nil => intro rev cnt idx i hi; exact absurd hi (by simp)
  | cons t ts ih =>
    intro rev cnt idx i hi hfirst hhit
    cases i with
    | zero =>
      rw [detectLoop_cons]
      rw [cumRev_cons_one] at hhit ⊢
      rcases hrv : revHit rule (rev + t.amount) with _ | _
      · rw [hrv] at hhit
        rcases hhit with h | h
        · exact absurd h (by simp)
        · simp [hrv, h]
      · simp [hrv]
    | succ i' =>
      obtain ⟨h0r, h0c⟩ := hfirst 0 (Nat.succ_pos _)
      rw [cumRev_cons_one] at h0r
      rw [detectLoop_cons, h0r, h0c]
      simp only [if_false, Bool.false_eq_true]
      have hfirst' : ∀ j, j < i' →
          revHit rule (rev + t.amount + cumRev ts (j + 1)) = false ∧
          cntHit rule (cnt + 1 + (j + 1)) = false := by
        intro j hj
        obtain ⟨hr, hc⟩ := hfirst (j + 1) (by omega)
        rw [cumRev_cons_succ, ← add_assoc] at hr
        refine ⟨hr, ?_⟩
        have : cnt + 1 + (j + 1) = cnt + (j + 1 + 1) := by omega
        rw [this]
        exact hc
      have hhit' : revHit rule (rev + t.amount + cumRev ts (i' + 1)) = true ∨
          cntHit rule (cnt + 1 + (i' + 1)) = true := by
        rcases hhit with h | h
        · left
          rw [cumRev_cons_succ, ← add_assoc] at h
          exact h
        · right
          have : cnt + 1 + (i' + 1) = cnt + (i' + 1 + 1) := by omega
          rw [this]
          exact h
      have := ih (rev + t.amount) (cnt + 1) (idx + 1) i' (by simpa using hi) hfirst' hhit'
      rw [this]
      have e1 : rev + t.amount + cumRev ts (i' + 1) = rev + cumRev (t :: ts) (i' + 1 + 1) := by
        rw [cumRev_cons_succ, ← add_assoc]
      have e2 : cnt + 1 + (i' + 1) = cnt + (i' + 1 + 1) := by omega
      have e3 : idx + 1 + i' = idx + (i' + 1) := by omega
      rw [e1, e2, e3]

end Nexus

namespace Nexus

/-! ### Claims C1, C2, C4, C5 -/

/-- C1: for a rule with `amount > 0`, the reported `total_revenue` and
`total_transactions` are exactly the accumulators as the detection loop left
them, and `threshold_percentage = max(revenue_pct, txn_pct)` is computed from
those values, where `txn_pct` is nonzero only when `rule.transactions` is set
and positive; moreover, when a breach stopped the loop at index `i`, those
accumulators cover only the first `i + 1` sorted transactions (revenue up to
and including the breach transaction), not the state's full totals. -/
theorem claim_C1_threshold_percentage (taxRate : String → Option Rat)
    (sc : String) (txns : List Transaction) (rule : StateRule)
    (h : 0 < rule.amount) :
    (analyzeState taxRate sc txns rule).total_revenue = (detectOut rule (sortTxns txns)).1 ∧
    (analyzeState taxRate sc txns rule).total_transactions =
      (detectOut rule (sortTxns txns)).2.1 ∧
    (analyzeState taxRate sc txns rule).threshold_percentage =
      max ((detectOut rule (sortTxns txns)).1 / rule.amount * 100)
        (txnPctOf rule.transactions (detectOut rule (sortTxns txns)).2.1) ∧
    (∀ i s, (detectOut rule (sortTxns txns)).2.2 = some (i, s) →
      (detectOut rule (sortTxns txns)).1 = cumRev (sortTxns txns) (i + 1) ∧
      (detectOut rule (sortTxns txns)).2.1 = i + 1) := by
  refine ⟨rfl, rfl, ?_, ?_⟩
  · simp only [analyzeState]
    rw [if_pos h]
  · intro i s hb
    have hne : rule.amount ≠ 0 := ne_of_gt h
    rw [detectOut, if_neg hne] at hb ⊢
    obtain ⟨-, -, hr, hc⟩ := detectLoop_some_inv rule (sortTxns txns) 0 0 0 i s hb
    simp only [Nat.sub_zero] at hr hc
    rw [hr, hc]
    exact ⟨by rw [zero_add], by omega⟩

section
attribute [local semireducible] Rat.add Rat.mul Rat.inv Rat.sub

/-- C1 witness: one CA transaction of 150 against a 100 threshold; the loop
breaks at index 0 with revenue 150, and the percentage is 150. -/
theorem claim_C1_witness :
    0 < exRule.amount ∧
    (analyzeState exTax "CA" [exT150] exRule).threshold_percentage =
      max ((detectOut exRule (sortTxns [exT150])).1 / exRule.amount * 100)
        (txnPctOf exRule.transactions (detectOut exRule (sortTxns [exT150])).2.1) :=
  ⟨by decide, (claim_C1_threshold_percentage exTax "CA" [exT150] exRule (by decide)).2.2.1⟩

end

/-- C2: if the cumulative revenue first reaches `rule.amount` at index `i` of
the sorted sequence and the cumulative count reaches its threshold `T` at the
same index (`i + 1 = T`), the breach is classified `revenue`, because the
revenue condition is checked before the count condition at each index. -/
theorem claim_C2_simultaneous_breach_is_revenue (taxRate : String → Option Rat)
    (sc : String) (txns : List Transaction) (rule : StateRule) (T i : Nat)
    (hamt : 0 < rule.amount)
    (hT : rule.transactions = some T) (hT0 : 0 < T)
    (hi : i < (sortTxns txns).length)
    (hrev : rule.amount ≤ cumRev (sortTxns txns) (i + 1))
    (hcnt : i + 1 = T)
    (hfirst : ∀ j, j < i → cumRev (sortTxns txns) (j + 1) < rule.amount) :
    (analyzeState taxRate sc txns rule).breach_type = some "revenue" ∧
    (analyzeState taxRate sc txns rule).has_nexus = true := by
  have hne : rule.amount ≠ 0 := ne_of_gt hamt
  have hfirst' : ∀ j, j < i → revHit rule ((0 : Rat) + cumRev (sortTxns txns) (j + 1)) = false ∧
      cntHit rule (0 + (j + 1)) = false := by
    intro j hj
    constructor
    · rw [zero_add]
      simp only [revHit, decide_eq_false_iff_not, not_le]
      exact hfirst j hj
    · simp only [cntHit, hT, Bool.and_eq_false_iff, decide_eq_false_iff_not, not_le]
      right
      omega
  have hhit : revHit rule ((0 : Rat) + cumRev (sortTxns txns) (i + 1)) = true ∨
      cntHit rule (0 + (i + 1)) = true := by
    left
    rw [zero_add]
    simp only [revHit, decide_eq_true_eq]
    exact hrev
  have hloop := detectLoop_first_breach rule (sortTxns txns) 0 0 0 i hi hfirst' hhit
  have hrv : revHit rule ((0 : Rat) + cumRev (sortTxns txns) (i + 1)) = true := by
    rw [zero_add]
    simp only [revHit, decide_eq_true_eq]
    exact hrev
  rw [hrv] at hloop
  simp only [if_true, zero_add, Nat.zero_add] at hloop
  constructor
  · simp only [analyzeState, detectOut, if_neg hne, hloop]
    rfl
  · simp only [analyzeState, detectOut, if_neg hne, hloop]
    rfl

section
attribute [local semireducible] Rat.add Rat.mul Rat.inv Rat.sub

/-- C2 witness: two 60-amount transactions against thresholds 100 revenue and
2 transactions; both thresholds are crossed at index 1, and the breach is
classified `revenue`. -/
theorem claim_C2_witness :
    (analyzeState exTax "CA" [exA, exB] exRuleT).breach_type = some "revenue" :=
  (claim_C2_simultaneous_breach_is_revenue exTax "CA" [exA, exB] exRuleT 2 1
    (by decide) (by decide) (by decide) (by decide) (by decide) (by decide)
    (by intro j hj; interval_cases j <;> decide)).1

end

end Nexus

namespace Nexus

/-- C4: for a rule with `amount == 0`, no breach check is performed: the
result has `has_nexus = false`, `breach_type = none`,
`threshold_percentage = 0`, and the totals are the full sums over all of the
state's transactions; so such a rule never yields `has_nexus = true`. -/
theorem claim_C4_zero_threshold (taxRate : String → Option Rat) (sc : String)
    (txns : List Transaction) (rule : StateRule) (h : rule.amount = 0) :
    (analyzeState taxRate sc txns rule).has_nexus = false ∧
    (analyzeState taxRate sc txns rule).breach_type = none ∧
    (analyzeState taxRate sc txns rule).threshold_percentage = 0 ∧
    (analyzeState taxRate sc txns rule).total_revenue = sumAmounts txns ∧
    (analyzeState taxRate sc txns rule).total_transactions = txns.length := by
  have hnotpos : ¬ 0 < rule.amount := by rw [h]; exact lt_irrefl 0
  refine ⟨?_, ?_, ?_, ?_, ?_⟩
  · simp only [analyzeState, detectOut, if_pos h]
    rfl
  · simp only [analyzeState, detectOut, if_pos h]
    rfl
  · simp only [analyzeState]
    rw [if_neg hnotpos]
  · simp only [analyzeState, detectOut, if_pos h]
    exact sumAmounts_sortTxns txns
  · simp only [analyzeState, detectOut, if_pos h]
    exact length_sortTxns txns

section
attribute [local semireducible] Rat.add Rat.mul Rat.inv Rat.sub

/-- C4 witness: a zero-threshold rule on a 150-amount transaction yields no
nexus and full totals. -/
theorem claim_C4_witness :
    exRule0.amount = 0 ∧
    (analyzeState exTax "CA" [exT150] exRule0).has_nexus = false ∧
    (analyzeState exTax "CA" [exT150] exRule0).total_revenue = sumAmounts [exT150] :=
  ⟨by decide,
    (claim_C4_zero_threshold exTax "CA" [exT150] exRule0 (by decide)).1,
    (claim_C4_zero_threshold exTax "CA" [exT150] exRule0 (by decide)).2.2.2.1⟩

end

/-- C5: if the detection step reports a breach at index `i` of the sorted
sequence, `estimated_liability` is the sum of the amounts from the breaching
transaction to the end of the sorted sequence times `tax_rate / 100`; with no
breach it is `0`; and an absent tax rate is treated as `tax_rate = 0` rather
than a failure. -/
theorem claim_C5_liability (taxRate : String → Option Rat) (sc : String)
    (txns : List Transaction) (rule : StateRule) :
    ((detectOut rule (sortTxns txns)).2.2 = none →
      (analyzeState taxRate sc txns rule).estimated_liability = 0) ∧
    (∀ i s, (detectOut rule (sortTxns txns)).2.2 = some (i, s) →
      (analyzeState taxRate sc txns rule).estimated_liability =
        sumAmounts ((sortTxns txns).drop i) * (((taxRate sc).getD 0) / 100)) ∧
    (taxRate sc = none → (analyzeState taxRate sc txns rule).tax_rate = 0) := by
  refine ⟨?_, ?_, ?_⟩
  · intro hb
    simp only [analyzeState]
    rw [hb]
  · intro i s hb
    simp only [analyzeState]
    rw [hb]
  · intro ht
    simp only [analyzeState]
    rw [ht]
    rfl

section
attribute [local semireducible] Rat.add Rat.mul Rat.inv Rat.sub

/-- C5 witness: breach at index 0 of a two-transaction sequence with rate 10
gives liability `(150) * 10/100`; and an absent rate yields `tax_rate = 0`. -/
theorem claim_C5_witness :
    ((detectOut exRule (sortTxns [exT150])).2.2 = some (0, "revenue") ∧
      (analyzeState exTax "CA" [exT150] exRule).estimated_liability =
        sumAmounts ((sortTxns [exT150]).drop 0) * (((exTax "CA").getD 0) / 100)) ∧
    (analyzeState (fun _ => none) "CA" [exT150] exRule).tax_rate = 0 :=
  ⟨⟨by decide,
    (claim_C5_liability exTax "CA" [exT150] exRule).2.1 0 "revenue" (by decide)⟩,
    (claim_C5_liability (fun _ => none) "CA" [exT150] exRule).2.2 rfl⟩

end

end Nexus

namespace Nexus

/-! ### Claim C3 -/

section
attribute [local semireducible] Rat.add Rat.mul Rat.inv Rat.sub

/-- C3: the detection order is ascending in the key `(date, id)` — the sorted
sequence is `Pairwise txnLE` and a permutation of the input — and the
tie-break on equal dates compares ids as strings: with equal dates and ids
`"b"` then `"a"` in input order, `"a"` is placed first, and this order decides
which transaction is reported as the breach transaction (here the threshold
splits across the two, so the second sorted transaction `"b"` breaches). -/
theorem claim_C3_sort_order :
    (∀ l : List Transaction, (sortTxns l).Pairwise txnLE ∧ (sortTxns l).Perm l) ∧
    sortTxns [exB, exA] = [exA, exB] ∧
    (analyzeState exTax "CA" [exB, exA] exRule).breach_transaction_id = some "b" := by
  refine ⟨fun l => ⟨List.sorted_insertionSort txnLE l, List.perm_insertionSort txnLE l⟩,
    by decide, by decide⟩

end

/-! ### Filter-stage lemmas and claims C6, C9 -/



theorem filterFold_fst (year : Nat) (im incl : Bool) :
    ∀ (txns : List Transaction) (acc : List Transaction × List String),
      (txns.foldl (filterStep year im incl) acc).1 =
        acc.1 ++ txns.filter (passPred year im incl) := by
  intro txns
  induction txns with
  | nil => intro acc; simp
  | cons t ts ih =>
    intro acc
    rw [List.foldl_cons, ih]
    unfold filterStep
    split_ifs with h1 h2 h3 h4
    · simp [List.filter_cons, passPred, beq_iff_eq, h1]
    · simp [List.filter_cons, passPred, h2]
    · simp [List.filter_cons, passPred, h3]
    · have h4' : isValidStateCode t.state_code = false := by
        revert h4; cases isValidStateCode t.state_code <;> simp
      simp [List.filter_cons, passPred, h4']
    · have h1' : t.date.year = year := not_not.mp h1
      have h2' : (im && t.revenue_type == some "marketplace") = false := by
        revert h2; cases im && t.revenue_type == some "marketplace" <;> simp
      have h3' : (!incl && decide (t.amount < 0)) = false := by
        revert h3; cases !incl && decide (t.amount < 0) <;> simp
      have h4' : isValidStateCode t.state_code = true := by
        revert h4; cases isValidStateCode t.state_code <;> simp
      simp [List.filter_cons, passPred, h1', h2', h3', h4']

theorem filterFold_snd (year : Nat) (im incl : Bool) :
    ∀ (txns : List Transaction) (acc : List Transaction × List String),
      (txns.foldl (filterStep year im incl) acc).2 =
        acc.2 ++ txns.filterMap (invalidWarn year im incl) := by
  intro txns
  induction txns with
  | nil => intro acc; simp
  | cons t ts ih =>
    intro acc
    rw [List.foldl_cons, ih, List.filterMap_cons]
    unfold filterStep
    split_ifs with h1 h2 h3 h4
    · have hw : invalidWarn year im incl t = none := by simp [invalidWarn, h1]
      rw [hw]
    · have hw : invalidWarn year im incl t = none := by simp [invalidWarn, h1, h2]
      rw [hw]
    · have hw : invalidWarn year im incl t = none := by simp [invalidWarn, h1, h2, h3]
      rw [hw]
    · have hw : invalidWarn year im incl t =
          some ("Invalid state code: " ++ t.state_code) := by
        simp [invalidWarn, h1, h2, h3, h4]
      rw [hw]
      simp
    · have hw : invalidWarn year im incl t = none := by
        simp [invalidWarn, h1, h2, h3, h4]
      rw [hw]

/-- The filtered list is exactly the sublist passing all four rules. -/
theorem filterTransactions_fst (txns : List Transaction) (year : Nat)
    (im incl : Bool) :
    (filterTransactions txns year im incl).1 = txns.filter (passPred year im incl) := by
  unfold filterTransactions
  dsimp only
  split_ifs with h
  · rw [filterFold_fst]; rfl
  · rw [filterFold_fst]; rfl

/-- C6: the reported `total_liability` is the sum of `estimated_liability`
over all state results, and `transaction_count` counts the transactions that
survive the filter stage (year, marketplace, negative-amount, state-code
rules), not the raw input count. -/
theorem claim_C6_aggregate_invariants (cfg : Config) (txns : List Transaction)
    (year : Nat) (im incl : Bool) :
    (analyze cfg txns year im incl).total_liability =
      ((analyze cfg txns year im incl).state_results.map
        StateResult.estimated_liability).sum ∧
    (analyze cfg txns year im incl).transaction_count =
      txns.countP (passPred year im incl) := by
  constructor
  · rfl
  · show (filterTransactions txns year im incl).1.length = _
    rw [filterTransactions_fst, List.countP_eq_length_filter]

/-- The warnings of the filter stage: the invalid-state warnings in input
order, followed by the single marketplace warning exactly when
`ignore_marketplace` is set and the total drop count is positive. -/
theorem filterTransactions_snd (txns : List Transaction) (year : Nat)
    (im incl : Bool) :
    (filterTransactions txns year im incl).2 =
      txns.filterMap (invalidWarn year im incl) ++
        (if im = true ∧ 0 < txns.length - (txns.filter (passPred year im incl)).length then
          [marketplaceWarning (txns.length - (txns.filter (passPred year im incl)).length)]
        else []) := by
  have hfst : (txns.foldl (filterStep year im incl) (([], []) : List Transaction × List String)).1 =
      txns.filter (passPred year im incl) := by
    rw [filterFold_fst]; rfl
  have hsnd : (txns.foldl (filterStep year im incl) (([], []) : List Transaction × List String)).2 =
      txns.filterMap (invalidWarn year im incl) := by
    rw [filterFold_snd]; rfl
  unfold filterTransactions
  dsimp only
  rw [hfst, hsnd]
  by_cases h : im = true ∧ 0 < txns.length - (txns.filter (passPred year im incl)).length
  · obtain ⟨him, hpos⟩ := h
    subst him
    have hb : ((true : Bool) && decide
        (0 < txns.length - (txns.filter (passPred year true incl)).length)) = true := by
      simp only [Bool.true_and, decide_eq_true_eq]
      exact hpos
    rw [if_pos hb, if_pos ⟨rfl, hpos⟩]
  · have hb : ¬ ((im && decide
        (0 < txns.length - (txns.filter (passPred year im incl)).length)) = true) := by
      simpa only [Bool.and_eq_true, decide_eq_true_eq] using h
    rw [if_neg hb, if_neg h, hsnd]
    simp

theorem invalidWarn_some {year : Nat} {im incl : Bool} {t : Transaction} {s : String}
    (h : invalidWarn year im incl t = some s) :
    s = "Invalid state code: " ++ t.state_code := by
  unfold invalidWarn at h
  split_ifs at h <;> simp_all

theorem marketplaceWarning_ne_invalid (k : Nat) (c : String) :
    marketplaceWarning k ≠ "Invalid state code: " ++ c := by
  intro h
  have h' : (marketplaceWarning k).data.head? = ("Invalid state code: " ++ c).data.head? := by
    rw [h]
  have hF : (marketplaceWarning k).data.head? = some 'F' := rfl
  have hI : ("Invalid state code: " ++ c).data.head? = some 'I' := rfl
  rw [hF, hI] at h'
  exact absurd h' (by decide)

theorem marketplaceWarning_not_mem_invalid (txns : List Transaction) (year : Nat)
    (im incl : Bool) (k : Nat) :
    marketplaceWarning k ∉ txns.filterMap (invalidWarn year im incl) := by
  intro hmem
  obtain ⟨t, -, ht⟩ := List.mem_filterMap.mp hmem
  exact marketplaceWarning_ne_invalid k t.state_code (invalidWarn_some ht)

/-- C9: when `ignore_marketplace` is set and at least one transaction was
dropped by any filter rule, exactly one warning
`"Filtered out <N> marketplace transactions"` appears, with
`N = input_count - output_count` counting all drops; when
`ignore_marketplace` is unset, or nothing was dropped, no such warning
appears for any count. -/
theorem claim_C9_marketplace_warning_count (txns : List Transaction) (year : Nat)
    (im incl : Bool) :
    (im = true → 0 < txns.length - (filterTransactions txns year im incl).1.length →
      ((filterTransactions txns year im incl).2).count
        (marketplaceWarning
          (txns.length - (filterTransactions txns year im incl).1.length)) = 1) ∧
    (im = false →
      ∀ k, ((filterTransactions txns year im incl).2).count (marketplaceWarning k) = 0) ∧
    (txns.length - (filterTransactions txns year im incl).1.length = 0 →
      ∀ k, ((filterTransactions txns year im incl).2).count (marketplaceWarning k) = 0) := by
  rw [filterTransactions_fst, filterTransactions_snd]
  refine ⟨?_, ?_, ?_⟩
  · intro him hpos
    rw [if_pos ⟨him, hpos⟩, List.count_append]
    rw [List.count_eq_zero.mpr (marketplaceWarning_not_mem_invalid txns year im incl _)]
    simp
  · intro him k
    rw [if_neg (by rw [him]; intro hc; exact absurd hc.1 (by decide))]
    rw [List.append_nil]
    exact List.count_eq_zero.mpr (marketplaceWarning_not_mem_invalid txns year im incl k)
  · intro hzero k
    rw [if_neg (by rw [hzero]; intro hc; exact absurd hc.2 (by decide))]
    rw [List.append_nil]
    exact List.count_eq_zero.mpr (marketplaceWarning_not_mem_invalid txns year im incl k)

section
attribute [local semireducible] Rat.add Rat.mul Rat.inv Rat.sub

/-- C9 witness: three transactions — one marketplace-typed, one from another
year, one kept — with `ignore_marketplace` set: two drops in total, and the
single warning reports the count 2 even though only one drop was a
marketplace transaction. -/
theorem claim_C9_witness :
    ((filterTransactions [exM, exOld, exA] 2024 true false).2).count
      (marketplaceWarning
        (([exM, exOld, exA] : List Transaction).length -
          (filterTransactions [exM, exOld, exA] 2024 true false).1.length)) = 1 ∧
    ∀ k, ((filterTransactions [exM, exOld, exA] 2024 false false).2).count
      (marketplaceWarning k) = 0 :=
  ⟨(claim_C9_marketplace_warning_count [exM, exOld, exA] 2024 true false).1 rfl (by decide),
    (claim_C9_marketplace_warning_count [exM, exOld, exA] 2024 false false).2.1 rfl⟩

end

/-! ### Claim C8 -/

theorem analyzeState_liability_some (taxRate : String → Option Rat) (sc : String)
    (txns : List Transaction) (rule : StateRule) (i : Nat) (s : String)
    (hb : (detectOut rule (sortTxns txns)).2.2 = some (i, s)) :
    (analyzeState taxRate sc txns rule).estimated_liability =
      sumAmounts ((sortTxns txns).drop i) * (((taxRate sc).getD 0) / 100) := by
  simp only [analyzeState]
  rw [hb]

section
attribute [local semireducible] Rat.add Rat.mul Rat.inv Rat.sub

/-- C8 counterexample: with transactions 600000 then 400000 against a 500000
threshold and every provider rate equal to 10, the state breaches at the
first transaction, the reported `total_revenue` is the truncated 600000, but
liability is charged on the full 1000000: `estimated_liability = 100000`
exceeds `total_revenue * max_tax_rate / 100 = 60000`. -/
theorem claim_C8_counterexample :
    (analyzeState exTax "CA" [cexT1, cexT2] cexRule).has_nexus = true ∧
    (∀ s r, exTax s = some r → r ≤ 10) ∧
    ¬ ((analyzeState exTax "CA" [cexT1, cexT2] cexRule).estimated_liability ≤
      (analyzeState exTax "CA" [cexT1, cexT2] cexRule).total_revenue * 10 / 100) := by
  refine ⟨by decide, ?_, by decide⟩
  intro s r h
  simp only [exTax, Option.some.injEq] at h
  exact le_of_eq h.symm

end

/-- C8 (amended): for a state with a breach, when all of the state's
transaction amounts are nonnegative and every rate the provider returns lies
in `[0, maxRate]` with `maxRate ≥ 0`, the liability is nonnegative and
bounded by the state's *full* revenue (the sum over all its transactions,
which can exceed the truncated reported `total_revenue`) times
`maxRate / 100`. -/
theorem claim_C8_amended_conservation (taxRate : String → Option Rat) (sc : String)
    (txns : List Transaction) (rule : StateRule) (maxRate : Rat)
    (hA : ∀ t ∈ txns, 0 ≤ t.amount) (hM : 0 ≤ maxRate)
    (hr : ∀ s r, taxRate s = some r → 0 ≤ r ∧ r ≤ maxRate)
    (hnex : (analyzeState taxRate sc txns rule).has_nexus = true) :
    0 ≤ (analyzeState taxRate sc txns rule).estimated_liability ∧
    (analyzeState taxRate sc txns rule).estimated_liability ≤
      sumAmounts txns * maxRate / 100 := by
  have hnex' : ((detectOut rule (sortTxns txns)).2.2).isSome = true := hnex
  obtain ⟨⟨i, s⟩, hb⟩ := Option.isSome_iff_exists.mp hnex'
  rw [analyzeState_liability_some taxRate sc txns rule i s hb]
  have hss : ∀ t ∈ sortTxns txns, 0 ≤ t.amount := by
    intro t ht
    exact hA t ((sortTxns_perm txns).mem_iff.mp ht)
  have hdrop : 0 ≤ sumAmounts ((sortTxns txns).drop i) := by
    apply List.sum_nonneg
    intro x hx
    obtain ⟨t, ht, rfl⟩ := List.mem_map.mp hx
    exact hss t (List.drop_subset i _ ht)
  have htake : 0 ≤ sumAmounts ((sortTxns txns).take i) := by
    apply List.sum_nonneg
    intro x hx
    obtain ⟨t, ht, rfl⟩ := List.mem_map.mp hx
    exact hss t (List.take_subset i _ ht)
  have hS : 0 ≤ sumAmounts (sortTxns txns) := by
    apply List.sum_nonneg
    intro x hx
    obtain ⟨t, ht, rfl⟩ := List.mem_map.mp hx
    exact hss t ht
  have hsplit : sumAmounts (sortTxns txns) =
      sumAmounts ((sortTxns txns).take i) + sumAmounts ((sortTxns txns).drop i) := by
    conv_lhs => rw [← List.take_append_drop i (sortTxns txns)]
    exact sumAmounts_append _ _
  have hdrop_le : sumAmounts ((sortTxns txns).drop i) ≤ sumAmounts (sortTxns txns) := by
    rw [hsplit]
    linarith
  have hrate : 0 ≤ (taxRate sc).getD 0 ∧ (taxRate sc).getD 0 ≤ maxRate := by
    rcases htr : taxRate sc with _ | r
    · exact ⟨le_refl 0, hM⟩
    · simpa using hr sc r htr
  constructor
  · apply mul_nonneg hdrop
    apply div_nonneg hrate.1
    norm_num
  · have h1 : sumAmounts ((sortTxns txns).drop i) * (((taxRate sc).getD 0) / 100) ≤
        sumAmounts (sortTxns txns) * (maxRate / 100) := by
      apply mul_le_mul hdrop_le
      · linarith [hrate.2]
      · apply div_nonneg hrate.1
        norm_num
      · exact hS
    calc sumAmounts ((sortTxns txns).drop i) * (((taxRate sc).getD 0) / 100) ≤
        sumAmounts (sortTxns txns) * (maxRate / 100) := h1
      _ = sumAmounts txns * maxRate / 100 := by
          rw [sumAmounts_sortTxns, mul_div_assoc]

section
attribute [local semireducible] Rat.add Rat.mul Rat.inv Rat.sub

/-- C8 witness: the amended bound on the counterexample input — liability
100000 is nonnegative and does not exceed the full revenue 1000000 times
10/100. -/
theorem claim_C8_witness :
    0 ≤ (analyzeState exTax "CA" [cexT1, cexT2] cexRule).estimated_liability ∧
    (analyzeState exTax "CA" [cexT1, cexT2] cexRule).estimated_liability ≤
      sumAmounts [cexT1, cexT2] * 10 / 100 :=
  claim_C8_amended_conservation exTax "CA" [cexT1, cexT2] cexRule 10
    (by decide) (by decide)
    (fun s r h => by
      simp only [exTax, Option.some.injEq] at h
      exact ⟨h ▸ (by norm_num), le_of_eq h.symm⟩)
    (by decide)

end

/-! ### Structure of the analyze result list (for C7 and C10) -/

theorem analyzeState_state_code (taxRate : String → Option Rat) (sc : String)
    (txns : List Transaction) (rule : StateRule) :
    (analyzeState taxRate sc txns rule).state_code = sc := rfl

theorem zeroStateResult_state_code (cfg : Config) (rule : StateRule) :
    (zeroStateResult cfg rule).state_code = rule.state_code := rfl

theorem stateFold_fst (cfg : Config) :
    ∀ (gs : List (String × List Transaction)) (acc : List StateResult × List String),
      (gs.foldl (stateStep cfg) acc).1 =
        acc.1 ++ gs.filterMap (fun p => (getRuleForState cfg p.1).map
          (fun rule => analyzeState (getTaxRate cfg) p.1 p.2 rule)) := by
  intro gs
  induction gs with
  | nil => intro acc; simp
  | cons g gs ih =>
    intro acc
    rw [List.foldl_cons, ih, List.filterMap_cons]
    rcases h : getRuleForState cfg g.1 with _ | rule
    · have hs : (stateStep cfg acc g).1 = acc.1 := by
        simp [stateStep, h]
      rw [hs]
      simp
    · have hs : (stateStep cfg acc g).1 =
          acc.1 ++ [analyzeState (getTaxRate cfg) g.1 g.2 rule] := by
        simp [stateStep, h]
      rw [hs]
      simp

theorem groupStep_keys (acc : List (String × List Transaction)) (t : Transaction) :
    (groupStep acc t).map Prod.fst =
      if acc.any (fun p => p.1 == t.state_code) then acc.map Prod.fst
      else acc.map Prod.fst ++ [t.state_code] := by
  unfold groupStep
  split_ifs with h
  · rw [List.map_map]
    apply List.map_congr_left
    intro p hp
    by_cases hc : p.1 == t.state_code
    · simp only [Function.comp_apply, if_pos hc]
    · simp only [Function.comp_apply, if_neg hc]
  · simp

theorem groupFold_keys_nodup :
    ∀ (l : List Transaction) (acc : List (String × List Transaction)),
      (acc.map Prod.fst).Nodup → ((l.foldl groupStep acc).map Prod.fst).Nodup := by
  intro l
  induction l with
  | nil => intro acc h; exact h
  | cons t ts ih =>
    intro acc h
    rw [List.foldl_cons]
    apply ih
    rw [groupStep_keys]
    split_ifs with hany
    · exact h
    · have hnot : t.state_code ∉ acc.map Prod.fst := by
        intro hmem
        obtain ⟨p, hp, hpc⟩ := List.mem_map.mp hmem
        have : acc.any (fun p => p.1 == t.state_code) = true :=
          List.any_eq_true.mpr ⟨p, hp, by simp [hpc]⟩
        exact absurd this hany
      simp [List.nodup_append, h, hnot]

theorem groupByState_keys_nodup (l : List Transaction) :
    ((groupByState l).map Prod.fst).Nodup :=
  groupFold_keys_nodup l [] (by simp)

theorem filterMap_sublist_map {α β : Type} (f : α → Option β) (g : α → β)
    (h : ∀ a b, f a = some b → b = g a) :
    ∀ l : List α, (l.filterMap f).Sublist (l.map g) := by
  intro l
  induction l with
  | nil => simp
  | cons a l ih =>
    rw [List.filterMap_cons, List.map_cons]
    rcases hf : f a with _ | b
    · exact ih.cons _
    · rw [h a b hf]
      exact ih.cons₂ _

theorem currentRules_codes_nodup (cfg : Config)
    (hkeys : (cfg.states.map Prod.fst).Nodup)
    (hcodes : ∀ p ∈ cfg.states, p.2.state_code = p.1) :
    ((getCurrentRules cfg).map StateRule.state_code).Nodup := by
  have heq : (getCurrentRules cfg).map StateRule.state_code =
      (cfg.states.filter (fun p =>
        match p.2.end_date with
        | none => true
        | some d => Date.ltb cfg.today d)).map Prod.fst := by
    unfold getCurrentRules
    rw [List.map_map]
    apply List.map_congr_left
    intro p hp
    exact hcodes p (List.mem_of_mem_filter hp)
  rw [heq]
  exact ((List.filter_sublist _).map Prod.fst).nodup hkeys

theorem analyze_state_results_eq (cfg : Config) (txns : List Transaction)
    (year : Nat) (im incl : Bool) :
    (analyze cfg txns year im incl).state_results =
      (groupByState (filterTransactions txns year im incl).1).filterMap
        (fun p => (getRuleForState cfg p.1).map
          (fun rule => analyzeState (getTaxRate cfg) p.1 p.2 rule)) ++
      (getCurrentRules cfg).filterMap (fun rule =>
        if (((groupByState (filterTransactions txns year im incl).1).filterMap
            (fun p => (getRuleForState cfg p.1).map
              (fun rule => analyzeState (getTaxRate cfg) p.1 p.2 rule))).map
              StateResult.state_code).contains rule.state_code then none
        else some (zeroStateResult cfg rule)) := by
  unfold analyze
  dsimp only
  rw [stateFold_fst]
  simp only [List.nil_append]

/-- C7: with transactions carrying uppercased state codes and a well-formed
rule table (distinct dict keys, each rule's `state_code` equal to its key),
every state of `get_current_rules()` appears exactly once among the state
results — once from detection when it had transactions, or once as the
synthesized zero-activity result otherwise. -/
theorem claim_C7_current_rules_exactly_once (cfg : Config) (txns : List Transaction)
    (year : Nat) (im incl : Bool)
    (hkeys : (cfg.states.map Prod.fst).Nodup)
    (hcodes : ∀ p ∈ cfg.states, p.2.state_code = p.1)
    (hupper : ∀ t ∈ txns, strUpper t.state_code = t.state_code) :
    ∀ rule ∈ getCurrentRules cfg,
      ((analyze cfg txns year im incl).state_results.map StateResult.state_code).count
        rule.state_code = 1 := by
  intro rule hrule
  rw [analyze_state_results_eq, List.map_append, List.count_append]
  set gs := groupByState (filterTransactions txns year im incl).1 with hgsdef
  have hP : ((gs.filterMap (fun p => (getRuleForState cfg p.1).map
      (fun rule => analyzeState (getTaxRate cfg) p.1 p.2 rule))).map
        StateResult.state_code) =
      gs.filterMap (fun p => (getRuleForState cfg p.1).map (fun _ => p.1)) := by
    rw [List.map_filterMap]
    congr 1
    funext p
    rcases getRuleForState cfg p.1 with _ | r
    · simp
    · simp [analyzeState_state_code]
  rw [hP]
  set P := gs.filterMap (fun p => (getRuleForState cfg p.1).map (fun _ => p.1)) with hPdef
  have hPnodup : P.Nodup := by
    apply List.Sublist.nodup (filterMap_sublist_map _ Prod.fst ?_ gs)
      (groupByState_keys_nodup _)
    intro a b hab
    obtain ⟨r, -, hr⟩ := Option.map_eq_some'.mp hab
    exact hr.symm
  have hS : ((getCurrentRules cfg).filterMap (fun rule =>
        if P.contains rule.state_code then none
        else some (zeroStateResult cfg rule))).map StateResult.state_code =
      (getCurrentRules cfg).filterMap (fun rule =>
        if P.contains rule.state_code then none else some rule.state_code) := by
    rw [List.map_filterMap]
    congr 1
    funext r
    split_ifs
    · simp
    · simp [zeroStateResult_state_code]
  rw [hS]
  set S := (getCurrentRules cfg).filterMap (fun rule =>
      if P.contains rule.state_code then none else some rule.state_code) with hSdef
  have hSnodup : S.Nodup := by
    apply List.Sublist.nodup (filterMap_sublist_map _ StateRule.state_code ?_ _)
      (currentRules_codes_nodup cfg hkeys hcodes)
    intro a b hab
    split_ifs at hab
    exact (Option.some_inj.mp hab).symm
  by_cases hp : rule.state_code ∈ P
  · rw [List.count_eq_one_of_mem hPnodup hp]
    have hnotS : rule.state_code ∉ S := by
      intro hmem
      obtain ⟨r', hr', heq⟩ := List.mem_filterMap.mp hmem
      split_ifs at heq with hc
      have hcode : r'.state_code = rule.state_code := Option.some_inj.mp heq
      rw [hcode] at hc
      exact hc (List.elem_iff.mpr hp)
    rw [List.count_eq_zero.mpr hnotS]
  · rw [List.count_eq_zero.mpr hp]
    have hmemS : rule.state_code ∈ S := by
      apply List.mem_filterMap.mpr
      refine ⟨rule, hrule, ?_⟩
      rw [if_neg ?_]
      intro hc
      exact hp (List.elem_iff.mp hc)
    rw [List.count_eq_one_of_mem hSnodup hmemS]

section
attribute [local semireducible] Rat.add Rat.mul Rat.inv Rat.sub

/-- C7 witness: a one-rule configuration and a single CA transaction — "CA"
appears exactly once in the results. -/
theorem claim_C7_witness :
    ((analyze exCfg [exA] 2024 false false).state_results.map
      StateResult.state_code).count exRule.state_code = 1 :=
  claim_C7_current_rules_exactly_once exCfg [exA] 2024 false false
    (by decide) (by decide) (by decide) exRule (by decide)

end

/-! ### Claim C10 -/

theorem analyzeState_consistency (taxRate : String → Option Rat) (sc : String)
    (txns : List Transaction) (rule : StateRule) :
    (analyzeState taxRate sc txns rule).has_nexus =
      (analyzeState taxRate sc txns rule).breach_type.isSome ∧
    (analyzeState taxRate sc txns rule).has_nexus =
      (analyzeState taxRate sc txns rule).breach_date.isSome ∧
    (analyzeState taxRate sc txns rule).has_nexus =
      (analyzeState taxRate sc txns rule).breach_transaction_id.isSome ∧
    ((analyzeState taxRate sc txns rule).has_nexus = false →
      (analyzeState taxRate sc txns rule).estimated_liability = 0) := by
  rcases hb : (detectOut rule (sortTxns txns)).2.2 with _ | ⟨i, s⟩
  · refine ⟨?_, ?_, ?_, ?_⟩
    · simp only [analyzeState]; rw [hb]; rfl
    · simp only [analyzeState]; rw [hb]; rfl
    · simp only [analyzeState]; rw [hb]; rfl
    · intro _
      simp only [analyzeState]; rw [hb]
  · have hlt : i < (sortTxns txns).length := by
      by_cases hA : rule.amount = 0
      · rw [detectOut, if_pos hA] at hb
        exact absurd hb (by simp)
      · rw [detectOut, if_neg hA] at hb
        have h := detectLoop_some_inv rule (sortTxns txns) 0 0 0 i s hb
        omega
    have hsome : ((sortTxns txns)[i]?).isSome = true := by
      rw [List.getElem?_eq_getElem hlt]
      rfl
    obtain ⟨t, ht⟩ := Option.isSome_iff_exists.mp hsome
    refine ⟨?_, ?_, ?_, ?_⟩
    · simp only [analyzeState]; rw [hb]; rfl
    · simp only [analyzeState]; rw [hb]
      simp only [Option.isSome_some, Option.some_bind]
      rw [ht]
      rfl
    · simp only [analyzeState]; rw [hb]
      simp only [Option.isSome_some, Option.some_bind]
      rw [ht]
      rfl
    · intro h
      simp only [analyzeState] at h
      rw [hb] at h
      exact absurd h (by simp)

/-- C10: every state result produced by `analyze` — detected or synthesized —
is internally consistent: `has_nexus` holds exactly when `breach_type` is
present, exactly when `breach_date` and `breach_transaction_id` are present,
and a state without nexus carries zero estimated liability. -/
theorem claim_C10_result_consistency (cfg : Config) (txns : List Transaction)
    (year : Nat) (im incl : Bool) :
    ∀ sr ∈ (analyze cfg txns year im incl).state_results,
      sr.has_nexus = sr.breach_type.isSome ∧
      sr.has_nexus = sr.breach_date.isSome ∧
      sr.has_nexus = sr.breach_transaction_id.isSome ∧
      (sr.has_nexus = false → sr.estimated_liability = 0) := by
  intro sr hmem
  rw [analyze_state_results_eq] at hmem
  rcases List.mem_append.mp hmem with hmem | hmem
  · obtain ⟨p, -, hsr⟩ := List.mem_filterMap.mp hmem
    obtain ⟨rule, -, hsr⟩ := Option.map_eq_some'.mp hsr
    rw [← hsr]
    exact analyzeState_consistency _ _ _ _
  · obtain ⟨rule, -, hsr⟩ := List.mem_filterMap.mp hmem
    split_ifs at hsr
    have hz : zeroStateResult cfg rule = sr := Option.some_inj.mp hsr
    rw [← hz]
    exact ⟨rfl, rfl, rfl, fun _ => rfl⟩

section
attribute [local semireducible] Rat.add Rat.mul Rat.inv Rat.sub

/-- C10 witness: the detected CA result for a single 150-amount transaction
against the 100 threshold is consistent (it has nexus, and all breach fields
are present). -/
theorem claim_C10_witness :
    (analyzeState (getTaxRate exCfg) "CA" [exT150] exRule).has_nexus =
      (analyzeState (getTaxRate exCfg) "CA" [exT150] exRule).breach_type.isSome ∧
    (analyzeState (getTaxRate exCfg) "CA" [exT150] exRule).has_nexus =
      (analyzeState (getTaxRate exCfg) "CA" [exT150] exRule).breach_date.isSome ∧
    (analyzeState (getTaxRate exCfg) "CA" [exT150] exRule).has_nexus =
      (analyzeState (getTaxRate exCfg) "CA" [exT150] exRule).breach_transaction_id.isSome ∧
    ((analyzeState (getTaxRate exCfg) "CA" [exT150] exRule).has_nexus = false →
      (analyzeState (getTaxRate exCfg) "CA" [exT150] exRule).estimated_liability = 0) :=
  claim_C10_result_consistency exCfg [exT150] 2024 false false
    (analyzeState (getTaxRate exCfg) "CA" [exT150] exRule) (by decide)

end

end Nexus
